import Mathlib

/-!
Shallow embedding of the queue discovery, ranking, admission-control and
dispatch subsystem of `cmd/runner/queues.go` (studio-go-runner), together
with theorems settling the frozen claims about it.

Go maps are modelled as association lists whose key component is unique
(`List.Nodup` on the projected keys where a claim needs it); Go's
`time.Duration` values are modelled in whole seconds as `Nat`; the
`go-cache` TTL cache is modelled as a list of `(key, expiry)` pairs where
a key is live at time `now` exactly when some entry for it has
`now < expiry`.
-/

/-- Modelled from the spec: `runner.Resource` is declared in the `runner`
package, which is not among the given sources.  Per the spec the resource
is the record `{cpus, ram, disk, gpus, gpu_mem}`; byte quantities are
modelled as `Nat`. -/
structure Resource where
  cpus : Nat
  ram : Nat
  hdd : Nat
  gpus : Nat
  gpuMem : Nat
deriving DecidableEq

/-- Modelled from the spec: `runner.Resource.Fit` is not among the given
sources.  Per the spec, `Fit` is the component-wise comparison: the
required resource fits iff every component is at most the corresponding
component of the available resource (errors arise only from malformed
unit strings, which cannot occur in the `Nat` model). -/
def Resource.fit (req avail : Resource) : Bool :=
  req.cpus ≤ avail.cpus && req.ram ≤ avail.ram && req.hdd ≤ avail.hdd &&
    req.gpus ≤ avail.gpus && req.gpuMem ≤ avail.gpuMem

/-- `Subscription` from queues.go: a queue name, the optional resource
hint (`rsc`, a nil-able pointer in Go, hence `Option`) and the in-flight
count `cnt`. -/
structure Subscription where
  name : String
  rsc : Option Resource
  cnt : Nat
deriving DecidableEq

/-- The `backoffs` TTL cache (`github.com/karlmutch/go-cache`): entries
are `(key, expiry)`; `Set` stores `expiry = now + ttl`, replacing any
previous entry for the key. -/
structure BackoffCache where
  entries : List (String × Nat)
deriving DecidableEq

/-- `backoffs.Get(key)` at time `now`: the key is present while some
entry for it has not yet expired. -/
def BackoffCache.get (b : BackoffCache) (key : String) (now : Nat) : Bool :=
  b.entries.any (fun e => e.1 == key && decide (now < e.2))

/-- `backoffs.Set(key, true, ttl)` at time `now`. -/
def BackoffCache.set (b : BackoffCache) (key : String) (ttl now : Nat) : BackoffCache :=
  ⟨(key, now + ttl) :: b.entries.filter (fun e => e.1 != key)⟩

/-! ## Subscriptions.align (queues.go lines 124-149)

The first loop ranges over `expected` and inserts `&Subscription{name, nil, 0}`
for every key not yet present; the second loop ranges over the (updated) map
and deletes every key absent from `expected`, recording it in `removed`. -/

/-- The first loop of `align`: add a fresh `Subscription{name: sub}` for
every expected key not already present, returning the updated map and the
`added` list. -/
def alignAdd (subs : List Subscription) : List String → List Subscription × List String
  | [] => (subs, [])
  | e :: rest =>
    if subs.any (fun s => s.name == e) then
      alignAdd subs rest
    else
      let p := alignAdd (subs ++ [{ name := e, rsc := none, cnt := 0 }]) rest
      (p.1, e :: p.2)

/-- `Subscriptions.align(expected)`: returns the registry after
reconciliation together with the `added` and `removed` name lists. -/
def align (subs : List Subscription) (expected : List String) :
    List Subscription × List String × List String :=
  let p := alignAdd subs expected
  (p.1.filter (fun s => expected.contains s.name),
   p.2,
   (p.1.filter (fun s => !expected.contains s.name)).map (fun s => s.name))

/-! ## Queuer.rank (queues.go lines 299-314)

Copies the map's values into a slice and sorts ascending by `cnt`
(`sort.Slice` with `ranked[i].cnt < ranked[j].cnt`); tie order is
unspecified, so any sorted permutation is a faithful model. -/

/-- `Queuer.rank()`: snapshot of the registry values sorted ascending by
the in-flight count. -/
def rank (subs : List Subscription) : List Subscription :=
  subs.mergeSort (fun a b => a.cnt ≤ b.cnt)

/-! ## shuffle (queues.go lines 176-184)

Fisher-Yates as written: `for i in 0..n-1 { r := i + rand.Intn(n-i); swap(slc[r], slc[i]) }`.
The RNG is modelled by a function `rand : Nat → Nat` giving the draw at
step `i`; `rand.Intn(n-i)` returns a value in `[0, n-i)`, captured by
taking the draw modulo `n - i`. -/

/-- Swap the elements at positions `i` and `j`; identity when either
index is out of range (in the source both are always in range). -/
def swapL {α : Type} (l : List α) (i j : Nat) : List α :=
  match l.get? i, l.get? j with
  | some a, some b => (l.set i b).set j a
  | _, _ => l

/-- The shuffle loop body, `k` iterations remaining, current index `i`;
the slice length is invariant so `l.length - i` is the Go `n - i`. -/
def shuffleAux {α : Type} (rand : Nat → Nat) : Nat → Nat → List α → List α
  | 0, _, l => l
  | k + 1, i, l => shuffleAux rand k (i + 1) (swapL l (i + rand i % (l.length - i)) i)

/-- `shuffle(slc)`: run the Fisher-Yates loop for `n = slc.length` steps. -/
def shuffle {α : Type} (rand : Nat → Nat) (l : List α) : List α :=
  shuffleAux rand l.length 0 l

/-! ## The producer tick (queues.go lines 203-279)

Each tick: `ranked := qr.rank()`; keep the subscriptions with `cnt == 0`
whose `project:name` key is not in the backoff cache; shuffle; truncate
to 8; then for each survivor call `check`, and on the first error set a
one-minute backoff for that key and break out of the loop. -/

/-- The candidate filter of a producer tick: subscriptions with no work
in flight whose key has no live backoff entry. -/
def tickCandidates (project : String) (b : BackoffCache) (now : Nat)
    (ranked : List Subscription) : List Subscription :=
  ranked.filter (fun sub => sub.cnt == 0 && !(b.get (project ++ ":" ++ sub.name) now))

/-- The `ready` slice a producer tick will offer to `check`: candidates,
shuffled, truncated to 8 when longer than 8. -/
def tickReady (project : String) (b : BackoffCache) (now : Nat)
    (rand : Nat → Nat) (ranked : List Subscription) : List Subscription :=
  let ready := shuffle rand (tickCandidates project b now ranked)
  if ready.length > 8 then ready.take 8 else ready

/-- The error kinds `check` can produce (queues.go lines 347-410). -/
inductive CheckErr where
  | busyStage1
  | subNotFound
  | doesNotFit
  | busyStage2
deriving DecidableEq

/-- The per-candidate loop of the producer tick (queues.go lines 257-267):
call `check` on each ready queue in order; on the first error set a
one-minute (60 s) backoff for `project:name` and break.  Returns the
names actually offered to `check` and the resulting backoff cache. -/
def offerLoop (project : String) (chk : String → Option CheckErr)
    (b : BackoffCache) (now : Nat) : List Subscription → List String × BackoffCache
  | [] => ([], b)
  | q :: rest =>
    match chk q.name with
    | some _ => ([q.name], b.set (project ++ ":" ++ q.name) 60 now)
    | none =>
      let p := offerLoop project chk b now rest
      (q.name :: p.1, p.2)

/-! ## Queuer.check (queues.go lines 347-410)

Stage 1: non-blocking probe send of an empty SubRequest; failure is the
1st-stage busy error.  Then the registry lookup; then, only when the
subscription has a non-nil `rsc`, the capacity test against the sampled
machine resources; finally the real SubRequest send with a 2 s timeout,
whose failure is the 2nd-stage busy error.  The channel outcomes are
modelled by the booleans `probeOk` (the non-blocking send was consumed)
and `dispatchOk` (the real send completed within the timeout). -/

def check (subs : List Subscription) (machine : Resource)
    (probeOk dispatchOk : Bool) (name : String) : Option CheckErr :=
  if !probeOk then
    some CheckErr.busyStage1
  else
    match subs.find? (fun s => s.name == name) with
    | none => some CheckErr.subNotFound
    | some sub =>
      match sub.rsc with
      | some r =>
        if r.fit machine then
          if dispatchOk then none else some CheckErr.busyStage2
        else
          some CheckErr.doesNotFit
      | none => if dispatchOk then none else some CheckErr.busyStage2

/-! ## Queuer.filterWork (queues.go lines 472-497)

If the backoff cache holds `project:subscription`, return without
spawning; otherwise set a 10-second backoff for the key and spawn the
worker goroutine.  The boolean result records whether a worker was
spawned. -/

def filterWork (b : BackoffCache) (now : Nat) (project subscription : String) :
    BackoffCache × Bool :=
  let key := project ++ ":" ++ subscription
  if b.get key now then (b, false) else (b.set key 10 now, true)

/-! ## Queuer.doWork (queues.go lines 499-600)

`doWork` creates the worker context `cCtx` with cancel `cCancel`, spins
a task-pump goroutine (which runs `tasker.Work(cCtx, ...)` and calls
`cCancel` — wrapped in a recover — when `Work` returns), and then runs
the liveness-watcher select loop until it returns; `doWork` returns when
that loop does.  The loop's wake-ups are modelled as a list of timed
events, and the shared state visible to the claims is whether `cCancel`
has been invoked plus the backoff cache:

  * `tick r` — the one-minute ticker fired and `tasker.Exists` produced
    `r`: a transient error (log, continue), `present` (extend the key's
    backoff by five minutes, continue) or `absent` (call `cCancel`,
    return);
  * `pumpDone` — the task pump's `Work` call returned, the pump invoked
    `cCancel`, and the watcher's `<-cCtx.Done()` case fired (return);
  * `quit` — `quitC` was signalled (return, with no cancel on this path).

Cancelling the context is modelled as setting `cancelled := true`; the
source wraps every `cCancel()` in a `recover`, so a second cancellation
is swallowed, which the idempotent boolean assignment captures. -/

inductive ExistsProbe where
  | probeErr
  | present
  | absent
deriving DecidableEq

inductive WEvent where
  | tick (r : ExistsProbe)
  | pumpDone
  | quit
deriving DecidableEq

structure DoWorkState where
  cancelled : Bool
  backoffs : BackoffCache
deriving DecidableEq

/-- One select-loop step of the liveness watcher: either the loop
continues with an updated state, or it returns (and with it `doWork`). -/
inductive WStep where
  | cont (s : DoWorkState)
  | ret (s : DoWorkState)
deriving DecidableEq

def watchStep (key : String) (s : DoWorkState) : Nat × WEvent → WStep
  | (_, WEvent.tick ExistsProbe.probeErr) => WStep.cont s
  | (t, WEvent.tick ExistsProbe.present) =>
      WStep.cont { s with backoffs := s.backoffs.set key 300 t }
  | (_, WEvent.tick ExistsProbe.absent) => WStep.ret { s with cancelled := true }
  | (_, WEvent.pumpDone) => WStep.ret { s with cancelled := true }
  | (_, WEvent.quit) => WStep.ret s

/-- Run the watcher loop over a list of timed events; `some s` means the
loop (and hence `doWork`) returned with shared state `s`, `none` means
the loop is still blocked in its select. -/
def watchRun (key : String) (s : DoWorkState) : List (Nat × WEvent) → Option DoWorkState
  | [] => none
  | e :: rest =>
    match watchStep key s e with
    | WStep.ret s2 => some s2
    | WStep.cont s2 => watchRun key s2 rest

/-! ## handleMsg (queues.go lines 602-681)

`handleMsg` has the named results `(rsc *runner.Resource, consume bool)`.
It sets `rsc = nil`, installs a deferred `recover` that only logs, then:

  * if `newProcessor` fails, returns `(rsc, true)` — i.e. `(nil, true)`;
  * otherwise sets `rsc = proc.Request.Experiment.Resource.Clone()`, runs
    `proc.Process`, and returns `(rsc, ack)` on both the error and the
    success branch.

Go semantics of a recovered panic with named results: the function
returns whatever the named results held when the panic started, so
`consume` holds its zero value `false` (no assignment to it ever runs on
a panic path) and `rsc` holds whatever had been computed so far.  The
outcome of the externally supplied calls is modelled by `HandlerEvent`;
`expRsc` is the experiment resource carried by the decoded message
(`Clone` is value-identity here). -/

inductive HandlerEvent where
  /-- `newProcessor` returned an error (e.g. undecodable payload). -/
  | newProcErr
  /-- a panic was raised inside the `newProcessor` call. -/
  | panicInNewProc
  /-- a panic was raised while cloning the experiment resource. -/
  | panicInClone
  /-- a panic was raised inside `proc.Process`. -/
  | panicInProcess
  /-- `proc.Process` returned `(ack, broadcast, err)`. -/
  | processed (ack broadcast hasErr : Bool)
deriving DecidableEq

def handleMsg (ev : HandlerEvent) (expRsc : Resource) : Option Resource × Bool :=
  match ev with
  | HandlerEvent.newProcErr => (none, true)
  | HandlerEvent.panicInNewProc => (none, false)
  | HandlerEvent.panicInClone => (none, false)
  | HandlerEvent.panicInProcess => (some expRsc, false)
  | HandlerEvent.processed ack _ _ => (some expRsc, ack)

/-! ## Helper lemmas -/

theorem mem_swapL {α : Type} {l : List α} {i j : Nat} {x : α}
    (h : x ∈ swapL l i j) : x ∈ l := by
  unfold swapL at h
  cases hi : l.get? i with
  | none => simp only [hi] at h; exact h
  | some a =>
    cases hj : l.get? j with
    | none => simp only [hi, hj] at h; exact h
    | some b =>
      simp only [hi, hj] at h
      rcases List.mem_or_eq_of_mem_set h with h2 | h2
      · rcases List.mem_or_eq_of_mem_set h2 with h3 | h3
        · exact h3
        · exact h3 ▸ List.get?_mem hj
      · exact h2 ▸ List.get?_mem hi

theorem mem_shuffleAux {α : Type} (rand : Nat → Nat) :
    ∀ (k i : Nat) (l : List α) (x : α), x ∈ shuffleAux rand k i l → x ∈ l := by
  intro k
  induction k with
  | zero => intro i l x h; simpa [shuffleAux] using h
  | succ n ih =>
    intro i l x h
    rw [shuffleAux] at h
    exact mem_swapL (ih _ _ _ h)

theorem mem_shuffle {α : Type} {rand : Nat → Nat} {l : List α} {x : α}
    (h : x ∈ shuffle rand l) : x ∈ l :=
  mem_shuffleAux rand _ _ _ _ h

theorem offerLoop_name_mem (project : String) (chk : String → Option CheckErr)
    (b : BackoffCache) (now : Nat) :
    ∀ (l : List Subscription) (n : String),
      n ∈ (offerLoop project chk b now l).1 → ∃ q, q ∈ l ∧ q.name = n := by
  intro l
  induction l with
  | nil => intro n h; simp [offerLoop] at h
  | cons q rest ih =>
    intro n h
    rw [offerLoop] at h
    cases hc : chk q.name with
    | some e =>
      simp only [hc] at h
      simp at h
      exact ⟨q, List.mem_cons_self q rest, h.symm⟩
    | none =>
      simp only [hc] at h
      simp at h
      rcases h with h | h
      · exact ⟨q, List.mem_cons_self q rest, h.symm⟩
      · obtain ⟨p, hp, hn⟩ := ih n h
        exact ⟨p, List.mem_cons_of_mem q hp, hn⟩

theorem BackoffCache.get_set_self (b : BackoffCache) (key : String) (ttl now t2 : Nat) :
    (b.set key ttl now).get key t2 = decide (t2 < now + ttl) := by
  have hrest : (b.entries.filter (fun e => e.1 != key)).any
      (fun e => e.1 == key && decide (t2 < e.2)) = false := by
    rw [List.any_eq_false]
    intro e he
    have := (List.mem_filter.mp he).2
    simp at this
    simp [this]
  simp [BackoffCache.get, BackoffCache.set, List.any_cons, hrest]

theorem alignAdd_append : ∀ (expected : List String) (subs : List Subscription),
    ∃ t, (alignAdd subs expected).1 = subs ++ t := by
  intro expected
  induction expected with
  | nil => intro subs; exact ⟨[], by simp [alignAdd]⟩
  | cons e rest ih =>
    intro subs
    by_cases hc : subs.any (fun s => s.name == e) = true
    · simpa [alignAdd, hc] using ih subs
    · obtain ⟨t, ht⟩ := ih (subs ++ [{ name := e, rsc := none, cnt := 0 }])
      refine ⟨{ name := e, rsc := none, cnt := 0 } :: t, ?_⟩
      simp [alignAdd, hc, ht]

theorem alignAdd_mem : ∀ (expected : List String) (subs : List Subscription)
    (s : Subscription), s ∈ (alignAdd subs expected).1 →
    s ∈ subs ∨ (s.name ∈ expected ∧ s.rsc = none ∧ s.cnt = 0) := by
  intro expected
  induction expected with
  | nil => intro subs s h; simp [alignAdd] at h; exact Or.inl h
  | cons e rest ih =>
    intro subs s h
    by_cases hc : subs.any (fun x => x.name == e) = true
    · simp only [alignAdd, hc] at h
      simp at h
      rcases ih subs s h with h1 | h1
      · exact Or.inl h1
      · exact Or.inr ⟨List.mem_cons_of_mem e h1.1, h1.2⟩
    · simp only [alignAdd, hc] at h
      simp at h
      rcases ih _ s h with h1 | h1
      · rcases List.mem_append.mp h1 with h2 | h2
        · exact Or.inl h2
        · simp at h2
          subst h2
          exact Or.inr ⟨List.mem_cons_self _ _, rfl, rfl⟩
      · exact Or.inr ⟨List.mem_cons_of_mem e h1.1, h1.2⟩

theorem alignAdd_expected : ∀ (expected : List String) (subs : List Subscription)
    (e : String), e ∈ expected →
    ∃ s, s ∈ (alignAdd subs expected).1 ∧ s.name = e := by
  intro expected
  induction expected with
  | nil => intro subs e h; cases h
  | cons a rest ih =>
    intro subs e h
    by_cases hc : subs.any (fun x => x.name == a) = true
    · rcases List.mem_cons.mp h with he | he
      · subst he
        obtain ⟨s, hs, hname⟩ := List.any_eq_true.mp hc
        obtain ⟨t, ht⟩ := alignAdd_append rest subs
        refine ⟨s, ?_, by simpa using hname⟩
        simp only [alignAdd, hc, if_true]
        simp only [ht]
        exact List.mem_append_left _ hs
      · obtain ⟨s, hs, hn⟩ := ih subs e he
        refine ⟨s, ?_, hn⟩
        simp only [alignAdd, hc, if_true]
        exact hs
    · rcases List.mem_cons.mp h with he | he
      · subst he
        obtain ⟨t, ht⟩ := alignAdd_append rest (subs ++ [{ name := e, rsc := none, cnt := 0 }])
        refine ⟨{ name := e, rsc := none, cnt := 0 }, ?_, rfl⟩
        simp only [alignAdd, hc]
        simp only [ht]
        simp
      · obtain ⟨s, hs, hn⟩ := ih (subs ++ [{ name := a, rsc := none, cnt := 0 }]) e he
        refine ⟨s, ?_, hn⟩
        simp only [alignAdd, hc]
        simp
        exact hs

theorem alignAdd_nodup : ∀ (expected : List String) (subs : List Subscription),
    (subs.map (fun s => s.name)).Nodup →
    ((alignAdd subs expected).1.map (fun s => s.name)).Nodup := by
  intro expected
  induction expected with
  | nil => intro subs h; simpa [alignAdd] using h
  | cons e rest ih =>
    intro subs h
    by_cases hc : subs.any (fun x => x.name == e) = true
    · simp only [alignAdd, hc, if_true]
      exact ih subs h
    · have hany : ∀ x ∈ subs, ¬x.name = e := by simpa using hc
      have hnot : e ∉ subs.map (fun s => s.name) := by
        intro hmem
        obtain ⟨x, hx, hxe⟩ := List.mem_map.mp hmem
        exact hany x hx hxe
      have h2 : ((subs ++ [({ name := e, rsc := none, cnt := 0 } : Subscription)]).map
          (fun s => s.name)).Nodup := by
        rw [List.map_append, List.nodup_append]
        exact ⟨h, by simp, by simpa [List.disjoint_singleton] using hnot⟩
      simp only [alignAdd, hc]
      simp
      exact ih _ h2

/-! ## Claim theorems -/

/-- C5: for every registry state, `rank()` returns one snapshot per
registered subscription (a permutation of the registry's values) and the
result is sorted in non-decreasing order of the in-flight count `cnt`. -/
theorem rank_sorted_perm (subs : List Subscription) :
    List.Perm (rank subs) subs ∧
    List.Pairwise (fun a b : Subscription => a.cnt ≤ b.cnt) (rank subs) := by
  refine ⟨List.mergeSort_perm subs _, ?_⟩
  unfold rank
  refine List.Pairwise.imp ?_ (List.sorted_mergeSort ?_ ?_ subs)
  · intro a b hab
    exact of_decide_eq_true hab
  · intro a b c hab hbc
    exact decide_eq_true (Nat.le_trans (of_decide_eq_true hab) (of_decide_eq_true hbc))
  · intro a b
    simpa using Nat.le_total a.cnt b.cnt

/-- C10: when `newProcessor` returns an error (e.g. an undecodable
payload), `handleMsg` returns a nil resource hint together with
`consume = true`, so the malformed message is removed from the queue. -/
theorem handleMsg_newProcErr (r : Resource) :
    handleMsg HandlerEvent.newProcErr r = (none, true) := rfl

/-- C1 counterexample: with a panic inside `proc.Process`, `handleMsg`
returns `consume = false` — not `consume = true` as the claim states —
because the named result `consume` still holds its zero value when the
deferred `recover` stops the panic. -/
theorem handleMsg_panic_consume_false :
    handleMsg HandlerEvent.panicInProcess
        { cpus := 1, ram := 2, hdd := 3, gpus := 4, gpuMem := 5 } =
      (some { cpus := 1, ram := 2, hdd := 3, gpus := 4, gpuMem := 5 }, false) := rfl

/-- C1 (amended): for every panic inside the handler — during
`newProcessor`, during the resource clone, or during `proc.Process` —
the panic is recovered and logged and `handleMsg` returns
`consume = false` (the zero value of the named result) together with the
resource hint it had computed so far unchanged. -/
theorem handleMsg_panic_spec (r : Resource) :
    handleMsg HandlerEvent.panicInNewProc r = (none, false) ∧
    handleMsg HandlerEvent.panicInClone r = (none, false) ∧
    handleMsg HandlerEvent.panicInProcess r = (some r, false) :=
  ⟨rfl, rfl, rfl⟩

/-- C2 counterexample: when the watcher loop of `doWork` is woken by the
quit channel first, `doWork` returns (`some` state) with the worker
context still uncancelled (`cancelled = false`), contradicting the claim
that `cCtx` is cancelled before `doWork` returns on every return path
including the quit path. -/
theorem doWork_quit_no_cancel :
    (watchRun "proj:q" { cancelled := false, backoffs := ⟨[]⟩ }
        [(0, WEvent.quit)]).map DoWorkState.cancelled = some false := rfl

/-- C2 (amended): on every return path of `doWork` other than the
quit-channel path — i.e. whenever the watcher returns because the queue
vanished or because the task pump finished `Work` and cancelled the
context — `cCtx` is cancelled by the time `doWork` returns; double
cancellation is legal and swallowed (every `cCancel` is wrapped in a
`recover`, modelled by the idempotent boolean assignment). -/
theorem doWork_cancel_spec (key : String) (s : DoWorkState)
    (tr : List (Nat × WEvent)) (s2 : DoWorkState)
    (hq : ∀ e ∈ tr, e.2 ≠ WEvent.quit)
    (hr : watchRun key s tr = some s2) : s2.cancelled = true := by
  induction tr generalizing s with
  | nil => simp [watchRun] at hr
  | cons e rest ih =>
    rw [watchRun] at hr
    rcases e with ⟨t, ev⟩
    cases ev with
    | tick r =>
      cases r with
      | probeErr =>
        simp only [watchStep] at hr
        exact ih _ (fun x hx => hq x (List.mem_cons_of_mem _ hx)) hr
      | present =>
        simp only [watchStep] at hr
        exact ih _ (fun x hx => hq x (List.mem_cons_of_mem _ hx)) hr
      | absent =>
        simp [watchStep] at hr
        simp [← hr]
    | pumpDone =>
      simp [watchStep] at hr
      simp [← hr]
    | quit =>
      exact absurd rfl (hq (t, WEvent.quit) (List.mem_cons_self _ _))

/-- C2 witness: a concrete non-quit trace (the task pump finishing) on
which `doWork` returns with the context cancelled. -/
theorem doWork_cancel_spec_witness :
    (∀ e ∈ [((0 : Nat), WEvent.pumpDone)], e.2 ≠ WEvent.quit) ∧
    watchRun "proj:q" { cancelled := false, backoffs := ⟨[]⟩ }
        [(0, WEvent.pumpDone)] = some { cancelled := true, backoffs := ⟨[]⟩ } ∧
    ({ cancelled := true, backoffs := ⟨[]⟩ } : DoWorkState).cancelled = true :=
  ⟨by decide, rfl,
   doWork_cancel_spec "proj:q" { cancelled := false, backoffs := ⟨[]⟩ }
     [(0, WEvent.pumpDone)] { cancelled := true, backoffs := ⟨[]⟩ }
     (by decide) rfl⟩

/-- C3: in a producer tick, when `check` returns an error for some
candidate — all candidates ranked before it having succeeded — a backoff
entry with a one-minute (60 s) TTL is inserted for that `project:queue`
key and the loop stops: the names offered to `check` are exactly the
successful prefix plus the failing queue, so candidates ranked after the
failing one are not offered in that tick. -/
theorem producer_first_error_backoff (project : String)
    (chk : String → Option CheckErr) (b : BackoffCache) (now : Nat)
    (pre : List Subscription) (f : Subscription) (post : List Subscription)
    (hpre : ∀ q ∈ pre, chk q.name = none) (hf : chk f.name ≠ none) :
    offerLoop project chk b now (pre ++ f :: post) =
      (pre.map (fun q => q.name) ++ [f.name],
       b.set (project ++ ":" ++ f.name) 60 now) := by
  induction pre with
  | nil =>
    rcases Option.ne_none_iff_exists.mp hf with ⟨e, he⟩
    simp only [List.nil_append, offerLoop, ← he]
    simp
  | cons q rest ih =>
    have hq : chk q.name = none := hpre q (List.mem_cons_self q rest)
    have hrest : ∀ x ∈ rest, chk x.name = none :=
      fun x hx => hpre x (List.mem_cons_of_mem q hx)
    simp only [List.cons_append, offerLoop, hq]
    simp only [List.append_eq]
    rw [ih hrest]
    simp

/-- C3 witness: a concrete tick in which `check` fails on the very first
candidate; the backoff is set and the second candidate is never offered. -/
theorem producer_first_error_backoff_witness :
    (∀ q ∈ ([] : List Subscription), (fun _ => some CheckErr.busyStage1) q.name = none) ∧
    offerLoop "p" (fun _ => some CheckErr.busyStage1) ⟨[]⟩ 0
        ([] ++ { name := "q", rsc := none, cnt := 0 } ::
          [{ name := "r", rsc := none, cnt := 0 }]) =
      (([] : List Subscription).map (fun q => q.name) ++ ["q"],
       BackoffCache.set ⟨[]⟩ ("p" ++ ":" ++ "q") 60 0) :=
  ⟨by decide,
   producer_first_error_backoff "p" (fun _ => some CheckErr.busyStage1) ⟨[]⟩ 0
     [] { name := "q", rsc := none, cnt := 0 } [{ name := "r", rsc := none, cnt := 0 }]
     (by decide) (by decide)⟩

/-- C6: the `ready` set a producer tick passes to the offer loop contains
only queues whose in-flight count is zero and whose `project:name` key
has no live backoff entry, and after shuffling it is capped at 8
elements; every name the offer loop actually offers to `check` belongs
to that set, so the producer never selects more than 8 queues per tick. -/
theorem producer_ready_cap (project : String) (b : BackoffCache) (now : Nat)
    (rand : Nat → Nat) (ranked : List Subscription)
    (chk : String → Option CheckErr) :
    (tickReady project b now rand ranked).length ≤ 8 ∧
    (∀ q ∈ tickReady project b now rand ranked,
        q.cnt = 0 ∧ b.get (project ++ ":" ++ q.name) now = false) ∧
    (∀ n ∈ (offerLoop project chk b now (tickReady project b now rand ranked)).1,
        ∃ q, q ∈ tickReady project b now rand ranked ∧ q.name = n) := by
  refine ⟨?_, ?_, offerLoop_name_mem project chk b now _⟩
  · unfold tickReady
    by_cases h : (shuffle rand (tickCandidates project b now ranked)).length > 8
    · simp [h, List.length_take]
    · simp [h]
      omega
  · intro q hq
    have hcand : q ∈ tickCandidates project b now ranked := by
      unfold tickReady at hq
      by_cases h : (shuffle rand (tickCandidates project b now ranked)).length > 8
      · simp only [h, if_true] at hq
        exact mem_shuffle (List.mem_of_mem_take hq)
      · simp only [h, if_false] at hq
        exact mem_shuffle hq
    have := (List.mem_filter.mp hcand).2
    simp at this
    exact ⟨this.1, this.2⟩

/-- C6 witness: a concrete registry of one idle queue with an empty
backoff cache. -/
theorem producer_ready_cap_witness :
    (tickReady "p" ⟨[]⟩ 0 (fun _ => 0) [{ name := "q1", rsc := none, cnt := 0 }]).length ≤ 8 ∧
    ({ name := "q1", rsc := none, cnt := 0 } : Subscription).cnt = 0 ∧
    BackoffCache.get ⟨[]⟩ ("p" ++ ":" ++ "q1") 0 = false :=
  ⟨(producer_ready_cap "p" ⟨[]⟩ 0 (fun _ => 0)
      [{ name := "q1", rsc := none, cnt := 0 }] (fun _ => none)).1,
   ((producer_ready_cap "p" ⟨[]⟩ 0 (fun _ => 0)
      [{ name := "q1", rsc := none, cnt := 0 }] (fun _ => none)).2.1
      { name := "q1", rsc := none, cnt := 0 } (by decide)).1,
   ((producer_ready_cap "p" ⟨[]⟩ 0 (fun _ => 0)
      [{ name := "q1", rsc := none, cnt := 0 }] (fun _ => none)).2.1
      { name := "q1", rsc := none, cnt := 0 } (by decide)).2⟩

/-- C7: for a registered queue, `check` runs the capacity test exactly
when the queue has a non-nil resource hint: with a hint that does not
fit the sampled machine resources it returns the `DoesNotFit` error,
while a queue with no hint skips the capacity check and proceeds
directly to the dispatch stage. -/
theorem check_capacity (subs : List Subscription) (machine : Resource)
    (dispatchOk : Bool) (name : String) (sub : Subscription)
    (hfind : subs.find? (fun s => s.name == name) = some sub) :
    (∀ r, sub.rsc = some r → r.fit machine = false →
        check subs machine true dispatchOk name = some CheckErr.doesNotFit) ∧
    (sub.rsc = none →
        check subs machine true dispatchOk name =
          (if dispatchOk then none else some CheckErr.busyStage2)) := by
  constructor
  · intro r hr hfit
    simp [check, hfind, hr, hfit]
  · intro hr
    simp [check, hfind, hr]

/-- C7 witness: a queue whose 4-GPU hint exceeds the host's 2 free GPUs
is rejected with `DoesNotFit`; a hintless queue is dispatched. -/
theorem check_capacity_witness :
    check [{ name := "qB", rsc := some { cpus := 0, ram := 0, hdd := 0, gpus := 4, gpuMem := 0 }, cnt := 0 }]
        { cpus := 8, ram := 8, hdd := 8, gpus := 2, gpuMem := 8 } true true "qB" =
      some CheckErr.doesNotFit ∧
    check [{ name := "qC", rsc := none, cnt := 0 }]
        { cpus := 8, ram := 8, hdd := 8, gpus := 2, gpuMem := 8 } true true "qC" = none :=
  ⟨(check_capacity
      [{ name := "qB", rsc := some { cpus := 0, ram := 0, hdd := 0, gpus := 4, gpuMem := 0 }, cnt := 0 }]
      { cpus := 8, ram := 8, hdd := 8, gpus := 2, gpuMem := 8 } true "qB"
      { name := "qB", rsc := some { cpus := 0, ram := 0, hdd := 0, gpus := 4, gpuMem := 0 }, cnt := 0 }
      (by decide)).1
      { cpus := 0, ram := 0, hdd := 0, gpus := 4, gpuMem := 0 } rfl (by decide),
   (check_capacity [{ name := "qC", rsc := none, cnt := 0 }]
      { cpus := 8, ram := 8, hdd := 8, gpus := 2, gpuMem := 8 } true "qC"
      { name := "qC", rsc := none, cnt := 0 } (by decide)).2 rfl⟩

/-- C8: when a live backoff entry exists for the request's
`project:subscription` key, `filterWork` drops the request and spawns no
worker; otherwise it inserts a 10-second backoff for the key and spawns
the worker, after which the key stays live for every instant of the next
10 seconds, so a second request for the same key within that window is
dropped. -/
theorem filterWork_backoff (b : BackoffCache) (now : Nat)
    (project subscription : String) :
    (b.get (project ++ ":" ++ subscription) now = true →
        filterWork b now project subscription = (b, false)) ∧
    (b.get (project ++ ":" ++ subscription) now = false →
        (filterWork b now project subscription).2 = true ∧
        ∀ t2, t2 < now + 10 →
          (filterWork b now project subscription).1.get
              (project ++ ":" ++ subscription) t2 = true ∧
          filterWork (filterWork b now project subscription).1 t2
              project subscription =
            ((filterWork b now project subscription).1, false)) := by
  constructor
  · intro h
    simp [filterWork, h]
  · intro h
    have hset : ∀ t2, t2 < now + 10 →
        (b.set (project ++ ":" ++ subscription) 10 now).get
          (project ++ ":" ++ subscription) t2 = true := by
      intro t2 ht
      rw [BackoffCache.get_set_self]
      simpa using ht
    have hfw : filterWork b now project subscription =
        (b.set (project ++ ":" ++ subscription) 10 now, true) := by
      simp [filterWork, h]
    refine ⟨by rw [hfw], fun t2 ht => ?_⟩
    rw [hfw]
    exact ⟨hset t2 ht, by simp [filterWork, hset t2 ht]⟩

/-- C8 witness: starting from an empty cache a first request spawns a
worker; a second request for the same key 5 seconds later is dropped. -/
theorem filterWork_backoff_witness :
    (filterWork ⟨[]⟩ 0 "p" "s").2 = true ∧
    filterWork (filterWork ⟨[]⟩ 0 "p" "s").1 5 "p" "s" =
      ((filterWork ⟨[]⟩ 0 "p" "s").1, false) :=
  ⟨((filterWork_backoff ⟨[]⟩ 0 "p" "s").2 (by decide)).1,
   (((filterWork_backoff ⟨[]⟩ 0 "p" "s").2 (by decide)).2 5 (by decide)).2⟩

/-- C4: after `align(E)` the registry's key set equals exactly `E`;
every queue newly added by `align` (name not previously registered)
starts with no resource hint and a zero in-flight count, and every queue
absent from `E` is removed and reported in the removed list. -/
theorem align_reconciles (subs : List Subscription) (expected : List String) :
    (∀ n, n ∈ (align subs expected).1.map (fun s => s.name) ↔ n ∈ expected) ∧
    (∀ s ∈ (align subs expected).1,
        s.name ∉ subs.map (fun x => x.name) → s.rsc = none ∧ s.cnt = 0) ∧
    (∀ n, n ∈ (align subs expected).2.2 ↔
        n ∈ subs.map (fun x => x.name) ∧ n ∉ expected) := by
  refine ⟨fun n => ⟨?_, ?_⟩, ?_, fun n => ⟨?_, ?_⟩⟩
  · intro h
    simp only [align] at h
    obtain ⟨s, hs, hn⟩ := List.mem_map.mp h
    have h2 := (List.mem_filter.mp hs).2
    rw [hn] at h2
    simpa using h2
  · intro h
    obtain ⟨s, hs, hn⟩ := alignAdd_expected expected subs n h
    simp only [align]
    refine List.mem_map.mpr ⟨s, List.mem_filter.mpr ⟨hs, ?_⟩, hn⟩
    simp [hn, h]
  · intro s hs hnot
    have hsA : s ∈ (alignAdd subs expected).1 := by
      simp only [align] at hs
      exact (List.mem_filter.mp hs).1
    rcases alignAdd_mem expected subs s hsA with h1 | h1
    · exact absurd (List.mem_map.mpr ⟨s, h1, rfl⟩) hnot
    · exact h1.2
  · intro h
    simp only [align] at h
    obtain ⟨s, hs, hn⟩ := List.mem_map.mp h
    have h1 := List.mem_filter.mp hs
    have hnin : n ∉ expected := by
      have h2 := h1.2
      rw [hn] at h2
      simpa using h2
    rcases alignAdd_mem expected subs s h1.1 with h2 | h2
    · exact ⟨List.mem_map.mpr ⟨s, h2, hn⟩, hnin⟩
    · exact absurd (hn ▸ h2.1) hnin
  · rintro ⟨hmem, hnin⟩
    obtain ⟨s, hs, hn⟩ := List.mem_map.mp hmem
    obtain ⟨t, ht⟩ := alignAdd_append expected subs
    have hsA : s ∈ (alignAdd subs expected).1 := by
      rw [ht]
      exact List.mem_append_left _ hs
    simp only [align]
    refine List.mem_map.mpr ⟨s, List.mem_filter.mpr ⟨hsA, ?_⟩, hn⟩
    simp only [hn]
    simpa using hnin

/-- C4 witness: from registry `{a, b}` and expected set `{a, c}`, queue
`c` is added (no hint, zero in-flight) and queue `b` is removed. -/
theorem align_reconciles_witness :
    "c" ∈ (align [{ name := "a", rsc := none, cnt := 2 },
                  { name := "b", rsc := none, cnt := 1 }] ["a", "c"]).1.map
        (fun s => s.name) ∧
    (({ name := "c", rsc := none, cnt := 0 } : Subscription).rsc = none ∧
     ({ name := "c", rsc := none, cnt := 0 } : Subscription).cnt = 0) ∧
    "b" ∈ (align [{ name := "a", rsc := none, cnt := 2 },
                  { name := "b", rsc := none, cnt := 1 }] ["a", "c"]).2.2 :=
  ⟨((align_reconciles [{ name := "a", rsc := none, cnt := 2 },
      { name := "b", rsc := none, cnt := 1 }] ["a", "c"]).1 "c").mpr (by decide),
   (align_reconciles [{ name := "a", rsc := none, cnt := 2 },
      { name := "b", rsc := none, cnt := 1 }] ["a", "c"]).2.1
     { name := "c", rsc := none, cnt := 0 } (by decide) (by decide),
   ((align_reconciles [{ name := "a", rsc := none, cnt := 2 },
      { name := "b", rsc := none, cnt := 1 }] ["a", "c"]).2.2 "b").mpr
     ⟨by decide, by decide⟩⟩

/-- C9: a queue present both before `align(E)` and in `E` survives
`align` with its `Subscription` record — resource hint and in-flight
count included — unchanged: the very same record is still registered,
and it is the only entry carrying that name. -/
theorem align_preserves_survivors (subs : List Subscription)
    (expected : List String) (s : Subscription)
    (hnd : (subs.map (fun x => x.name)).Nodup)
    (hs : s ∈ subs) (he : s.name ∈ expected) :
    s ∈ (align subs expected).1 ∧
    ∀ t ∈ (align subs expected).1, t.name = s.name → t = s := by
  obtain ⟨tl, htl⟩ := alignAdd_append expected subs
  have hsA : s ∈ (alignAdd subs expected).1 := by
    rw [htl]
    exact List.mem_append_left _ hs
  have hmem : s ∈ (align subs expected).1 := by
    simp only [align]
    exact List.mem_filter.mpr ⟨hsA, by simp [he]⟩
  refine ⟨hmem, fun t ht hname => ?_⟩
  have htA : t ∈ (alignAdd subs expected).1 := by
    simp only [align] at ht
    exact (List.mem_filter.mp ht).1
  exact List.inj_on_of_nodup_map (alignAdd_nodup expected subs hnd) htA hsA hname

/-- C9 witness: a queue with a hint and a non-zero in-flight count that
appears in the expected set survives `align` untouched. -/
theorem align_preserves_survivors_witness :
    ({ name := "a", rsc := some { cpus := 1, ram := 1, hdd := 1, gpus := 1, gpuMem := 1 },
       cnt := 3 } : Subscription) ∈
      (align [{ name := "a",
                rsc := some { cpus := 1, ram := 1, hdd := 1, gpus := 1, gpuMem := 1 },
                cnt := 3 },
              { name := "b", rsc := none, cnt := 0 }] ["a", "b"]).1 :=
  (align_preserves_survivors
    [{ name := "a", rsc := some { cpus := 1, ram := 1, hdd := 1, gpus := 1, gpuMem := 1 },
       cnt := 3 },
     { name := "b", rsc := none, cnt := 0 }] ["a", "b"]
    { name := "a", rsc := some { cpus := 1, ram := 1, hdd := 1, gpus := 1, gpuMem := 1 },
      cnt := 3 }
    (by decide) (by decide) (by decide)).1
